import Mathlib

/-
  Verification development for the SSE event-relay core (src/sse.py).

  Shallow embedding: the module-level mutable globals `connected_clients`
  (a Python list of asyncio.Queue) and `recent_event_ids` (a Python set)
  become an explicit `ServerState`; each handler becomes a pure state
  transformer. Python exceptions become `Except`: `handleBody` is the body
  of the try-block of `handle_realtime_event`, returning on error the state
  as mutated up to the raise point (Python mutates the global set in place,
  so a raise after `add` keeps the insertion). Queue objects are identified
  by their `id()` handle (`cid`); a queue is a FIFO list, enqueue at the
  tail. `json.dumps` of a change event is modelled by the injective
  constructor `Msg.event`; the serialized admin string by `Msg.raw`; the
  synthetic connection acknowledgment by `Msg.ack`.
-/

namespace SSE

/-- Event identifiers are opaque string tokens; the extracted identifier is
`Option Ident` because `payload.get('ids', [None])[0]` yields Python `None`
when the payload has no `ids` key. -/
abbrev Ident := String

/-- An opaque key-value mapping (a Python dict carried in `record` /
`old_record`). Python truthiness of a dict is non-emptiness. -/
abbrev Rcd := List (String × String)

/-- The `data` sub-object of a raw upstream notification, as in section 6 of
the design: `{type, table, schema, record?, old_record?, commit_timestamp}`.
`none` for `record` / `old_record` means the key is absent or bound to null
(indistinguishable through Python `dict.get`). -/
structure PayloadData where
  ty : String
  table : String
  schema : String
  record : Option Rcd
  old_record : Option Rcd
  commit_timestamp : String
deriving DecidableEq

/-- A raw upstream notification. `ids = none` models a payload with no
`ids` key; `ids = some []` models an `ids` key bound to an empty list;
`data = none` models a payload with no `data` key (accessing it raises
KeyError in the source). -/
structure Payload where
  ids : Option (List Ident)
  data : Option PayloadData
deriving DecidableEq

/-- The normalized change event that `handle_realtime_event` serializes:
`{type, table, schema, record, timestamp}`. -/
structure ChangeEvent where
  ty : String
  table : String
  schema : String
  record : Option Rcd
  timestamp : String
deriving DecidableEq

/-- A message sitting in a client queue: `event e` is `json.dumps` of a
change event, `ack` is the serialized synthetic
`{"type": "test", "message": "SSE connection established"}` message, and
`raw m` is the value enqueued verbatim by the admin endpoint. -/
inductive Msg where
  | event (e : ChangeEvent)
  | ack
  | raw (m : Option String)
deriving DecidableEq

/-- One connected client: an asyncio.Queue in the source, identified by its
`id()` handle, holding a FIFO list of messages (head = next to deliver). -/
structure Client where
  cid : Nat
  queue : List Msg
deriving DecidableEq

/-- The module-level mutable state of sse.py: `connected_clients` (in
registration order) and `recent_event_ids` (a set, modelled as a
duplicate-free list so that `len` is the membership count). -/
structure ServerState where
  connected_clients : List Client
  recent_event_ids : List (Option Ident)
deriving DecidableEq

/-- Membership test on the dedup cache (`event_id in recent_event_ids`). -/
def cacheMem (c : List (Option Ident)) (i : Option Ident) : Bool :=
  c.contains i

/-- `recent_event_ids.add(event_id)`: set insertion. -/
def cacheAdd (c : List (Option Ident)) (i : Option Ident) : List (Option Ident) :=
  if c.contains i then c else c ++ [i]

/-- `payload.get('ids', [None])[0]`: `None` when the `ids` key is absent,
IndexError when it is bound to an empty list, else the first element. -/
def extractEventId (p : Payload) : Except String (Option Ident) :=
  match p.ids with
  | none => .ok none
  | some [] => .error "IndexError"
  | some (i :: _) => .ok (some i)

/-- Python truthiness of an optional dict: `None` and `{}` are falsy. -/
def truthy (r : Option Rcd) : Bool :=
  match r with
  | none => false
  | some l => !l.isEmpty

/-- Python `a or b` on optional dicts: `b` whenever `a` is falsy. -/
def pyOr (a b : Option Rcd) : Option Rcd :=
  if truthy a then a else b

/-- The change event built from the `data` sub-object:
`record` is `data.get("record") or data.get("old_record")`. -/
def eventOfData (d : PayloadData) : ChangeEvent :=
  { ty := d.ty
    table := d.table
    schema := d.schema
    record := pyOr d.record d.old_record
    timestamp := d.commit_timestamp }

/-- `payload["data"]` then field accesses: KeyError when `data` is absent. -/
def buildEvent (p : Payload) : Except String ChangeEvent :=
  match p.data with
  | none => .error "KeyError"
  | some d => .ok (eventOfData d)

/-- The fan-out loop `for queue in connected_clients: await queue.put(m)`:
enqueues the one already-serialized message at the tail of every currently
registered queue, in registry order. -/
def broadcastMsg (clients : List Client) (m : Msg) : List Client :=
  clients.map (fun c => { c with queue := c.queue ++ [m] })

/-- The try-block body of `handle_realtime_event`. On a raise, the error
carries the server state as mutated up to the raise point: the IndexError
from `ids` precedes every mutation; the KeyError from `data` follows the
cache insertion (and possible clear) but precedes the fan-out loop. -/
def handleBody (p : Payload) (s : ServerState) : Except ServerState ServerState :=
  match extractEventId p with
  | .error _ => .error s
  | .ok eid =>
    if cacheMem s.recent_event_ids eid then
      .ok s
    else
      let cache1 := cacheAdd s.recent_event_ids eid
      let cache2 := if cache1.length > 1000 then [] else cache1
      match buildEvent p with
      | .error _ => .error { s with recent_event_ids := cache2 }
      | .ok ev =>
          .ok { connected_clients := broadcastMsg s.connected_clients (.event ev)
                recent_event_ids := cache2 }

/-- `handle_realtime_event`: the whole body runs under
`try: ... except Exception: log`, so every raise is caught and the handler
returns normally with the state as mutated so far. -/
def handle_realtime_event (p : Payload) (s : ServerState) : ServerState :=
  match handleBody p s with
  | .ok s1 => s1
  | .error s1 => s1

/-- Sequential processing of a stream of raw notifications by the handler. -/
def processAll (ps : List Payload) (s : ServerState) : ServerState :=
  ps.foldl (fun s1 p => handle_realtime_event p s1) s

/-- `await queue.put(m)` on the queue whose `id()` is `i`: the queue object
appended to `connected_clients` is the same object that is mutated, so the
registry entry with that handle gains the message. -/
def putToClient (clients : List Client) (i : Nat) (m : Msg) : List Client :=
  clients.map (fun c => if c.cid = i then { c with queue := c.queue ++ [m] } else c)

/-- The registered queue handles. -/
def cids (s : ServerState) : List Nat :=
  s.connected_clients.map (fun c => c.cid)

/-- `sse_stream`: create a fresh queue, append it to `connected_clients`,
then immediately put the serialized connection-established message on it.
`fresh` is the `id()` of the new queue object. -/
def sse_stream (fresh : Nat) (s : ServerState) : ServerState × Nat :=
  let s1 := { s with connected_clients := s.connected_clients ++ [({ cid := fresh, queue := [] } : Client)] }
  let s2 := { s1 with connected_clients := putToClient s1.connected_clients fresh .ack }
  (s2, fresh)

/-- `post_message`: `message = data.get("message")`, then put the raw value
on every registered queue, then return `{"status": "sent"}` (modelled by the
string of its `status` field). -/
def post_message (msg : Option String) (s : ServerState) : ServerState × String :=
  ({ s with connected_clients := broadcastMsg s.connected_clients (.raw msg) }, "sent")

/-- `connected_clients.remove(queue)` in the finally-block of
`event_generator`: removes the first occurrence of the queue with that
handle, raising ValueError when no such queue is registered. -/
def removeFirst (clients : List Client) (i : Nat) : Except String (List Client) :=
  match clients with
  | [] => .error "ValueError"
  | c :: rest =>
    if c.cid = i then .ok rest
    else
      match removeFirst rest i with
      | .ok rest1 => .ok (c :: rest1)
      | .error e => .error e

/-- The identifier the handler extracts from a payload whose `ids` key is
absent or bound to a nonempty list (the non-raising cases). -/
def pid (p : Payload) : Option Ident :=
  match p.ids with
  | some (i :: _) => some i
  | _ => none

/-- A raw notification shaped as in section 6 of the design: the `ids` list
is present and nonempty and the `data` object is present. -/
def wfPayload (p : Payload) : Bool :=
  (match p.ids with
   | some (_ :: _) => true
   | _ => false) && p.data.isSome

/-- The message the handler broadcasts for a well-formed payload. -/
def msgOf (p : Payload) : Msg :=
  match p.data with
  | some d => .event (eventOfData d)
  | none => .ack

/-- The subsequence of first occurrences: keeps a payload when its extracted
identifier is not in `seen`, recording it; drops duplicates and payloads
whose extraction raises. Mirrors the skip logic of the handler on sequences
that stay below the cache capacity. -/
def dedupFirst (seen : List (Option Ident)) : List Payload → List Payload
  | [] => []
  | p :: ps =>
    match extractEventId p with
    | .error _ => dedupFirst seen ps
    | .ok i =>
      if cacheMem seen i then dedupFirst seen ps
      else p :: dedupFirst (seen ++ [i]) ps

/- Concrete inputs used by witnesses and counterexamples. -/

/-- The data object of an INSERT notification for table users. -/
def dIns : PayloadData :=
  { ty := "INSERT", table := "users", schema := "public",
    record := some [("id", "1"), ("email", "a@b.com")],
    old_record := none, commit_timestamp := "t1" }

/-- An INSERT notification with identifier a. -/
def pA : Payload := { ids := some ["a"], data := some dIns }

/-- A second notification bearing the same identifier a (a duplicate). -/
def pA2 : Payload :=
  { ids := some ["a"]
    data := some { ty := "UPDATE", table := "users", schema := "public",
                   record := some [("id", "2")],
                   old_record := none, commit_timestamp := "t2" } }

/-- A DELETE notification with identifier b and only the pre-image. -/
def pB : Payload :=
  { ids := some ["b"]
    data := some { ty := "DELETE", table := "users", schema := "public",
                   record := none, old_record := some [("id", "1")],
                   commit_timestamp := "t3" } }

/-- A notification whose payload has no ids key. -/
def pNoIds : Payload := { ids := none, data := pA.data }

/-- A second, different notification that also has no ids key. -/
def pNoIds2 : Payload := { ids := none, data := pB.data }

/-- A notification whose ids key is bound to an empty list. -/
def pEmptyIds : Payload := { ids := some [], data := pA.data }

/-- A notification with an identifier but no data key. -/
def pNoData : Payload := { ids := some ["c"], data := none }

/-- A state with one registered client and an empty cache. -/
def s0 : ServerState :=
  { connected_clients := [{ cid := 7, queue := [] }], recent_event_ids := [] }

/-- A dedup cache holding exactly 1000 distinct identifiers. -/
def bigCache : List (Option Ident) := (List.range 1000).map (fun n => some (toString n))

/-- A well-formed notification with the fresh identifier z. -/
def pz : Payload := { ids := some ["z"], data := pA.data }

/-- A state whose dedup cache holds exactly 1000 identifiers, none of them z. -/
def s1000 : ServerState := { connected_clients := [], recent_event_ids := bigCache }

/-- A data object whose record key is present but bound to an empty mapping
while old record is present and nonempty. -/
def dTruthy : PayloadData :=
  { ty := "UPDATE", table := "t", schema := "public",
    record := some [], old_record := some [("a", "b")], commit_timestamp := "ts" }

/-- A DELETE-shaped data object: record absent, old record populated. -/
def dDelete : PayloadData :=
  { ty := "DELETE", table := "t", schema := "public",
    record := none, old_record := some [("id", "1")], commit_timestamp := "ts" }

/-- A single client used by the deregistration counterexample. -/
def c0 : Client := { cid := 0, queue := [] }

/-- The state the handler is left in after the KeyError raised while
processing pNoData from s0: the identifier was already cached when the
raise occurred, no queue was touched. -/
def sErr : ServerState :=
  { connected_clients := s0.connected_clients, recent_event_ids := [some "c"] }

/- Helper lemmas. -/

theorem broadcastMsg_length (cs : List Client) (m : Msg) :
    (broadcastMsg cs m).length = cs.length := by
  simp [broadcastMsg]

theorem broadcastMsg_getIdx (cs : List Client) (m : Msg) (k : Nat) :
    (broadcastMsg cs m)[k]? =
      (cs[k]?).map (fun c => { c with queue := c.queue ++ [m] }) := by
  simp [broadcastMsg]

theorem extract_ok_pid (p : Payload) (j : Option Ident)
    (h : extractEventId p = .ok j) : pid p = j := by
  unfold extractEventId at h
  unfold pid
  cases hp : p.ids with
  | none => rw [hp] at h; cases h; rfl
  | some l =>
    cases l with
    | nil => rw [hp] at h; cases h
    | cons i t => rw [hp] at h; cases h; rfl

theorem extractEventId_pid (p : Payload) (h : p.ids ≠ some []) :
    extractEventId p = .ok (pid p) := by
  unfold extractEventId pid
  cases hp : p.ids with
  | none => rfl
  | some l =>
    cases l with
    | nil => exact absurd hp h
    | cons i t => rfl

theorem wf_parts (p : Payload) (h : wfPayload p = true) :
    (∃ i t, p.ids = some (i :: t)) ∧ ∃ d, p.data = some d := by
  unfold wfPayload at h
  rw [Bool.and_eq_true] at h
  constructor
  · cases hp : p.ids with
    | none => rw [hp] at h; simp at h
    | some l =>
      cases l with
      | nil => rw [hp] at h; simp at h
      | cons i t => exact ⟨i, t, rfl⟩
  · cases hd : p.data with
    | none => rw [hd] at h; simp at h
    | some d => exact ⟨d, rfl⟩

theorem wf_extract (p : Payload) (h : wfPayload p = true) :
    extractEventId p = .ok (pid p) := by
  obtain ⟨⟨i, t, hp⟩, _⟩ := wf_parts p h
  exact extractEventId_pid p (by rw [hp]; simp)

theorem wf_build_msg (p : Payload) (d : PayloadData) (hd : p.data = some d) :
    buildEvent p = .ok (eventOfData d) ∧ msgOf p = .event (eventOfData d) := by
  constructor
  · unfold buildEvent; rw [hd]
  · unfold msgOf; rw [hd]

end SSE

namespace SSE

/- Claim theorems. -/

/-- Claim C4: a single broadcast enqueues the one serialized payload exactly
once onto each connection registered at broadcast time, preserving registry
length and iteration order (the client at index k stays at index k and gains
exactly the message m at the tail of its queue), and a second broadcast
appends after the first, so each client receives events in broadcast order
(per-client FIFO). Serialization happens once: the same message value m is
what every client receives. -/
theorem broadcast_enqueues_each_client_once :
    ∀ (cs : List Client) (m : Msg),
      (broadcastMsg cs m).length = cs.length ∧
      (∀ k : Nat, (broadcastMsg cs m)[k]? =
        (cs[k]?).map (fun c => { c with queue := c.queue ++ [m] })) ∧
      (∀ (m2 : Msg) (k : Nat), (broadcastMsg (broadcastMsg cs m) m2)[k]? =
        (cs[k]?).map (fun c => { c with queue := c.queue ++ [m, m2] })) := by
  intro cs m
  refine ⟨broadcastMsg_length cs m, fun k => broadcastMsg_getIdx cs m k, fun m2 k => ?_⟩
  rw [broadcastMsg_getIdx, broadcastMsg_getIdx]
  cases h : cs[k]? with
  | none => rfl
  | some c => simp

/-- Claim C7: the administrative injection endpoint enqueues the raw message
exactly once onto every currently registered queue (the client at index k
gains exactly the raw message), leaves the dedup cache untouched, and
returns the status acknowledgment "sent". -/
theorem post_message_broadcasts_raw :
    ∀ (msg : Option String) (s : ServerState),
      (post_message msg s).2 = "sent" ∧
      (post_message msg s).1.recent_event_ids = s.recent_event_ids ∧
      (∀ k : Nat, (post_message msg s).1.connected_clients[k]? =
        (s.connected_clients[k]?).map
          (fun c => { c with queue := c.queue ++ [Msg.raw msg] })) := by
  intro msg s
  exact ⟨rfl, rfl, fun k => broadcastMsg_getIdx s.connected_clients (Msg.raw msg) k⟩

/-- Claim C10: a payload whose ids key is bound to an empty list makes the
extraction raise an IndexError; the handler catches it and the whole server
state is unchanged: no client queue is touched and the dedup cache is not
mutated (the raise precedes the cache membership test and insertion). -/
theorem empty_ids_index_error_drops :
    ∀ (p : Payload) (s : ServerState), p.ids = some [] →
      extractEventId p = .error "IndexError" ∧
      handleBody p s = .error s ∧
      handle_realtime_event p s = s := by
  intro p s h
  have h1 : extractEventId p = .error "IndexError" := by
    unfold extractEventId; rw [h]
  refine ⟨h1, ?_, ?_⟩
  · unfold handleBody; rw [h1]
  · unfold handle_realtime_event handleBody; rw [h1]

theorem empty_ids_index_error_drops_wit :
    pEmptyIds.ids = some [] ∧
    (extractEventId pEmptyIds = .error "IndexError" ∧
     handleBody pEmptyIds s0 = .error s0 ∧
     handle_realtime_event pEmptyIds s0 = s0) :=
  ⟨rfl, empty_ids_index_error_drops pEmptyIds s0 rfl⟩

/-- Claim C3 counterexample: a data object whose record key is present
(bound to the empty mapping) while old record is also present. The claim
says the constructed event record equals the record field whenever that
field is present, but the source computes
`data.get("record") or data.get("old_record")` with Python truthiness, so
the empty mapping falls through to old record. -/
theorem record_truthiness_counterexample :
    dTruthy.record = some [] ∧
    (eventOfData dTruthy).record = some [("a", "b")] ∧
    (eventOfData dTruthy).record ≠ dTruthy.record := by
  refine ⟨rfl, rfl, ?_⟩
  decide

/-- Claim C3 (amended): the constructed event record equals the record field
whenever that field is present with a truthy (nonempty) value, and equals
the old record field otherwise — in particular whenever record is absent or
null, which covers DELETE notifications where only the pre-image exists. -/
theorem record_selection_truthy :
    ∀ d : PayloadData,
      (eventOfData d).record = (if truthy d.record then d.record else d.old_record) ∧
      (truthy d.record = true → (eventOfData d).record = d.record) ∧
      (d.record = none → (eventOfData d).record = d.old_record) := by
  intro d
  refine ⟨rfl, fun h => ?_, fun h => ?_⟩
  · simp [eventOfData, pyOr, h]
  · simp [eventOfData, pyOr, truthy, h]

theorem record_selection_truthy_wit :
    (dDelete.record = none ∧ (eventOfData dDelete).record = dDelete.old_record) ∧
    (truthy dIns.record = true ∧
     (eventOfData dIns).record = dIns.record) :=
  ⟨⟨rfl, (record_selection_truthy dDelete).2.2 rfl⟩,
   ⟨rfl, (record_selection_truthy dIns).2.1 rfl⟩⟩

/-- Claim C8 counterexample: deregistering the same connection twice raises.
With a registry holding only the queue with handle 0, the first removal
succeeds and empties the registry; the second removal of the same queue
raises ValueError instead of leaving the registry unchanged. -/
theorem double_deregister_raises :
    removeFirst [c0] 0 = .ok [] ∧ removeFirst [] 0 = .error "ValueError" :=
  ⟨rfl, rfl⟩

/-- Claim C8 (amended): deregistering a connection that is not registered
(in particular, one already removed) raises ValueError rather than silently
leaving the registry unchanged; a successful deregistration never removes a
different client: it removes exactly the first occurrence of the queue with
that handle, leaving every other entry in place. -/
theorem deregister_error_when_absent :
    ∀ (cs : List Client) (i : Nat),
      ((∀ c ∈ cs, c.cid ≠ i) → removeFirst cs i = .error "ValueError") ∧
      (∀ cs1, removeFirst cs i = .ok cs1 →
        ∃ c l1 l2, cs = l1 ++ c :: l2 ∧ c.cid = i ∧
          (∀ c1 ∈ l1, c1.cid ≠ i) ∧ cs1 = l1 ++ l2) := by
  intro cs i
  induction cs with
  | nil =>
    refine ⟨fun _ => rfl, fun cs1 h => ?_⟩
    exact absurd h (by unfold removeFirst; intro hx; cases hx)
  | cons c rest ih =>
    constructor
    · intro h
      have hc : c.cid ≠ i := h c (by simp)
      have hrest : removeFirst rest i = .error "ValueError" :=
        ih.1 (fun c1 hc1 => h c1 (by simp [hc1]))
      unfold removeFirst
      rw [if_neg hc, hrest]
    · intro cs1 hok
      unfold removeFirst at hok
      by_cases hc : c.cid = i
      · rw [if_pos hc] at hok
        cases hok
        exact ⟨c, [], rest, by simp, hc, by simp, by simp⟩
      · rw [if_neg hc] at hok
        cases hr : removeFirst rest i with
        | error e => rw [hr] at hok; cases hok
        | ok rest1 =>
          rw [hr] at hok
          cases hok
          obtain ⟨c2, l1, l2, he, hcid, hl1, hres⟩ := ih.2 rest1 hr
          refine ⟨c2, c :: l1, l2, by rw [he]; rfl, hcid, ?_, by rw [hres]; rfl⟩
          intro c1 hc1
          rcases List.mem_cons.mp hc1 with h1 | h1
          · rw [h1]; exact hc
          · exact hl1 c1 h1

theorem deregister_error_when_absent_wit :
    removeFirst [] 0 = .error "ValueError" ∧
    (∃ c l1 l2, [c0] = l1 ++ c :: l2 ∧ c.cid = 0 ∧
      (∀ c1 ∈ l1, c1.cid ≠ 0) ∧ ([] : List Client) = l1 ++ l2) :=
  ⟨(deregister_error_when_absent [] 0).1 (by simp),
   (deregister_error_when_absent [c0] 0).2 [] rfl⟩

end SSE

namespace SSE

/- Step lemmas about the handler, shared by several claims. -/

theorem extract_none (p : Payload) (h : p.ids = none) :
    extractEventId p = .ok none := by
  unfold extractEventId; rw [h]

theorem handle_extract_error (p : Payload) (s : ServerState) (m : String)
    (hx : extractEventId p = .error m) :
    handleBody p s = .error s ∧ handle_realtime_event p s = s := by
  constructor
  · unfold handleBody; rw [hx]
  · unfold handle_realtime_event handleBody; rw [hx]

theorem handle_dup (p : Payload) (s : ServerState) (eid : Option Ident)
    (hx : extractEventId p = .ok eid)
    (hm : cacheMem s.recent_event_ids eid = true) :
    handleBody p s = .ok s ∧ handle_realtime_event p s = s := by
  constructor
  · unfold handleBody; rw [hx]; simp [hm]
  · unfold handle_realtime_event handleBody; rw [hx]; simp [hm]

theorem cacheAdd_not_mem (c : List (Option Ident)) (i : Option Ident)
    (hm : cacheMem c i = false) : cacheAdd c i = c ++ [i] := by
  unfold cacheMem at hm
  unfold cacheAdd
  rw [hm]
  rfl

theorem handle_new_cache (p : Payload) (s : ServerState) (eid : Option Ident)
    (hx : extractEventId p = .ok eid)
    (hm : cacheMem s.recent_event_ids eid = false) :
    (handle_realtime_event p s).recent_event_ids =
      if s.recent_event_ids.length + 1 > 1000 then [] else s.recent_event_ids ++ [eid] := by
  unfold handle_realtime_event handleBody
  rw [hx]
  simp only [hm, Bool.false_eq_true, if_false]
  rw [cacheAdd_not_mem s.recent_event_ids eid hm]
  have hlen : (s.recent_event_ids ++ [eid]).length = s.recent_event_ids.length + 1 := by
    simp
  cases hb : buildEvent p with
  | error m => simp only [hb, hlen]
  | ok ev => simp only [hb, hlen]

theorem handle_new_full (p : Payload) (s : ServerState) (eid : Option Ident) (d : PayloadData)
    (hx : extractEventId p = .ok eid)
    (hm : cacheMem s.recent_event_ids eid = false)
    (hd : p.data = some d)
    (hlen : s.recent_event_ids.length < 1000) :
    handle_realtime_event p s =
      { connected_clients := broadcastMsg s.connected_clients (.event (eventOfData d))
        recent_event_ids := s.recent_event_ids ++ [eid] } := by
  have hb : buildEvent p = .ok (eventOfData d) := (wf_build_msg p d hd).1
  unfold handle_realtime_event handleBody
  rw [hx]
  simp only [hm, Bool.false_eq_true, if_false]
  rw [cacheAdd_not_mem s.recent_event_ids eid hm]
  have hgt : ¬ (s.recent_event_ids ++ [eid]).length > 1000 := by
    simp only [List.length_append, List.length_singleton]
    omega
  simp only [hb, if_neg hgt]

theorem handleBody_error_state (p : Payload) (s e : ServerState)
    (h : handleBody p s = .error e) :
    e.connected_clients = s.connected_clients := by
  unfold handleBody at h
  cases hx : extractEventId p with
  | error m =>
    rw [hx] at h
    cases h
    rfl
  | ok eid =>
    rw [hx] at h
    by_cases hm : cacheMem s.recent_event_ids eid = true
    · simp only [hm, if_true] at h
      cases h
    · have hm2 : cacheMem s.recent_event_ids eid = false := by
        simpa using hm
      simp only [hm2, Bool.false_eq_true, if_false] at h
      cases hb : buildEvent p with
      | error m2 =>
        simp only [hb] at h
        cases h
        rfl
      | ok ev =>
        simp only [hb] at h
        cases h

/- Claim theorems, continued. -/

/-- Claim C6: every exception raised inside the body of
handle_realtime_event is caught: the handler returns normally with the state
as mutated up to the raise point, the notification is dropped with no
delivery to any client queue, and processing of the remaining notifications
continues from that state. -/
theorem handler_catches_exceptions :
    ∀ (p : Payload) (s e : ServerState), handleBody p s = .error e →
      handle_realtime_event p s = e ∧
      e.connected_clients = s.connected_clients ∧
      (∀ rest : List Payload, processAll (p :: rest) s = processAll rest e) := by
  intro p s e h
  have h1 : handle_realtime_event p s = e := by
    unfold handle_realtime_event; rw [h]
  refine ⟨h1, handleBody_error_state p s e h, fun rest => ?_⟩
  unfold processAll
  rw [List.foldl_cons]
  show rest.foldl (fun s1 p1 => handle_realtime_event p1 s1) (handle_realtime_event p s) = _
  rw [h1]

theorem handler_catches_exceptions_wit :
    handleBody pNoData s0 = .error sErr ∧
    (handle_realtime_event pNoData s0 = sErr ∧
     sErr.connected_clients = s0.connected_clients ∧
     (∀ rest : List Payload, processAll (pNoData :: rest) s0 = processAll rest sErr)) :=
  ⟨rfl, handler_catches_exceptions pNoData s0 sErr rfl⟩

end SSE

namespace SSE

set_option maxRecDepth 10000

/-- Claim C2 counterexample: with the dedup cache holding exactly 1000
identifiers and a notification bearing the fresh identifier z arriving, the
source inserts first and then clears the whole set, so immediately after the
reset the cache is empty — it does not contain the newly inserted
identifier, contradicting the claim that the cache is cleared before the
insertion and afterwards contains exactly the new identifier. -/
theorem cache_reset_counterexample :
    s1000.recent_event_ids.length = 1000 ∧
    cacheMem s1000.recent_event_ids (some "z") = false ∧
    pz.ids = some ["z"] ∧
    (handle_realtime_event pz s1000).recent_event_ids = [] ∧
    (handle_realtime_event pz s1000).recent_event_ids.contains (some "z") = false := by
  refine ⟨by decide, by decide, rfl, by decide, by decide⟩

/-- Claim C2 (amended): at handler boundaries the cache size never exceeds
1000; when a new distinct identifier arrives while the membership count
equals 1000, the identifier is first inserted (the count transiently
reaches 1001) and then the entire cache, the new identifier included, is
cleared, so immediately after such a reset the cache is empty. -/
theorem cache_reset_clears_all :
    ∀ (p : Payload) (s : ServerState),
      (s.recent_event_ids.length ≤ 1000 →
        (handle_realtime_event p s).recent_event_ids.length ≤ 1000) ∧
      (s.recent_event_ids.length = 1000 →
        extractEventId p = .ok (pid p) →
        cacheMem s.recent_event_ids (pid p) = false →
        (handle_realtime_event p s).recent_event_ids = []) := by
  intro p s
  constructor
  · intro hle
    cases hx : extractEventId p with
    | error m =>
      rw [(handle_extract_error p s m hx).2]
      exact hle
    | ok eid =>
      by_cases hm : cacheMem s.recent_event_ids eid = true
      · rw [(handle_dup p s eid hx hm).2]
        exact hle
      · have hm2 : cacheMem s.recent_event_ids eid = false := by simpa using hm
        rw [handle_new_cache p s eid hx hm2]
        by_cases hgt : s.recent_event_ids.length + 1 > 1000
        · rw [if_pos hgt]
          simp
        · rw [if_neg hgt]
          simp only [List.length_append, List.length_singleton]
          omega
  · intro hlen hx hm
    rw [handle_new_cache p s (pid p) hx hm]
    rw [if_pos (by omega)]

theorem cache_reset_clears_all_wit :
    (handle_realtime_event pz s1000).recent_event_ids.length ≤ 1000 ∧
    (handle_realtime_event pz s1000).recent_event_ids = [] :=
  ⟨(cache_reset_clears_all pz s1000).1 (by decide),
   (cache_reset_clears_all pz s1000).2 (by decide) rfl (by decide)⟩

/-- Claim C9: a payload with no ids key yields the extracted identifier
None; once None is in the cache, every id-less notification is treated as a
duplicate and silently dropped with no state change regardless of its
content; and an id-less notification arriving while None is not cached (and
the cache is below capacity) is delivered to every registered client and
puts None into the cache. -/
theorem idless_dedup_none :
    ∀ (p1 p2 : Payload) (s : ServerState) (d : PayloadData),
      (p1.ids = none → extractEventId p1 = .ok none) ∧
      (p2.ids = none → cacheMem s.recent_event_ids none = true →
        handleBody p2 s = .ok s ∧ handle_realtime_event p2 s = s) ∧
      (p1.ids = none → p1.data = some d →
        cacheMem s.recent_event_ids none = false →
        s.recent_event_ids.length < 1000 →
        (handle_realtime_event p1 s).connected_clients =
          broadcastMsg s.connected_clients (.event (eventOfData d)) ∧
        (handle_realtime_event p1 s).recent_event_ids = s.recent_event_ids ++ [none] ∧
        cacheMem (handle_realtime_event p1 s).recent_event_ids none = true) := by
  intro p1 p2 s d
  refine ⟨fun h => extract_none p1 h, fun h hm => ?_, fun h hd hm hlen => ?_⟩
  · exact handle_dup p2 s none (extract_none p2 h) hm
  · have hfull := handle_new_full p1 s none d (extract_none p1 h) hm hd hlen
    rw [hfull]
    refine ⟨rfl, rfl, ?_⟩
    simp [cacheMem]

theorem idless_dedup_none_wit :
    extractEventId pNoIds = .ok none ∧
    handle_realtime_event pNoIds2 (handle_realtime_event pNoIds s0) =
      handle_realtime_event pNoIds s0 ∧
    (handle_realtime_event pNoIds s0).connected_clients =
      broadcastMsg s0.connected_clients (.event (eventOfData dIns)) :=
  ⟨(idless_dedup_none pNoIds pNoIds2 s0 dIns).1 rfl,
   ((idless_dedup_none pNoIds pNoIds2 (handle_realtime_event pNoIds s0) dIns).2.1
      rfl (by decide)).2,
   ((idless_dedup_none pNoIds pNoIds2 s0 dIns).2.2 rfl rfl (by decide) (by decide)).1⟩

end SSE

namespace SSE

theorem putToClient_fresh (cs : List Client) (fresh : Nat)
    (h : ∀ c ∈ cs, c.cid ≠ fresh) :
    putToClient (cs ++ [({ cid := fresh, queue := [] } : Client)]) fresh Msg.ack =
      cs ++ [({ cid := fresh, queue := [Msg.ack] } : Client)] := by
  unfold putToClient
  rw [List.map_append]
  congr 1
  · have heq : cs.map
        (fun c => if c.cid = fresh then { c with queue := c.queue ++ [Msg.ack] } else c) =
        cs.map id := List.map_congr_left (fun c hc => by rw [if_neg (h c hc)]; rfl)
    rw [heq, List.map_id]
  · simp

theorem find_appended_fresh (cs : List Client) (c1 : Client) (i : Nat)
    (hi : c1.cid = i) (h : ∀ c ∈ cs, c.cid ≠ i) :
    (cs ++ [c1]).find? (fun c => c.cid == i) = some c1 := by
  induction cs with
  | nil => simp [hi]
  | cons c rest ih =>
    have hc : (c.cid == i) = false := by
      simp only [beq_eq_false_iff_ne, ne_eq]
      exact h c (by simp)
    rw [List.cons_append, List.find?_cons_of_neg _ (by simp [hc])]
    exact ih (fun c2 h2 => h c2 (by simp [h2]))

/-- Claim C5: on a new streaming connection the handler first registers the
client — a fresh queue appended to the registry, every previously registered
client untouched — and then enqueues the synthetic connection-established
acknowledgment onto that queue, so the queue of the new client holds exactly
the acknowledgment and the first message it receives over the stream is that
acknowledgment, before any database event. -/
theorem stream_first_message_ack :
    ∀ (fresh : Nat) (s : ServerState), fresh ∉ cids s →
      (sse_stream fresh s).1.connected_clients =
        s.connected_clients ++ [({ cid := fresh, queue := [Msg.ack] } : Client)] ∧
      (sse_stream fresh s).1.recent_event_ids = s.recent_event_ids ∧
      ((sse_stream fresh s).1.connected_clients.find? (fun c => c.cid == fresh)).map
          (fun c => c.queue.head?) = some (some Msg.ack) := by
  intro fresh s h
  have hne : ∀ c ∈ s.connected_clients, c.cid ≠ fresh := by
    intro c hc he
    exact h (by unfold cids; exact List.mem_map.mpr ⟨c, hc, he⟩)
  have hcl : (sse_stream fresh s).1.connected_clients =
      s.connected_clients ++ [({ cid := fresh, queue := [Msg.ack] } : Client)] := by
    show putToClient (s.connected_clients ++ [({ cid := fresh, queue := [] } : Client)])
        fresh Msg.ack = _
    exact putToClient_fresh s.connected_clients fresh hne
  refine ⟨hcl, rfl, ?_⟩
  rw [hcl, find_appended_fresh s.connected_clients _ fresh rfl hne]
  rfl

theorem stream_first_message_ack_wit :
    (9 ∉ cids s0) ∧
    (sse_stream 9 s0).1.connected_clients =
      s0.connected_clients ++ [({ cid := 9, queue := [Msg.ack] } : Client)] ∧
    ((sse_stream 9 s0).1.connected_clients.find? (fun c => c.cid == 9)).map
        (fun c => c.queue.head?) = some (some Msg.ack) :=
  ⟨by decide,
   (stream_first_message_ack 9 s0 (by decide)).1,
   (stream_first_message_ack 9 s0 (by decide)).2.2⟩

end SSE

namespace SSE

/- Lemmas relating sequential processing to the first-occurrence
subsequence, used by the dedup delivery claim. -/

theorem processAll_cons (p : Payload) (ps : List Payload) (s : ServerState) :
    processAll (p :: ps) s = processAll ps (handle_realtime_event p s) := rfl

theorem foldl_broadcast_getIdx (qs : List Payload) (cs : List Client) (k : Nat) :
    (qs.foldl (fun cs1 p => broadcastMsg cs1 (msgOf p)) cs)[k]? =
      (cs[k]?).map (fun c => { c with queue := c.queue ++ qs.map msgOf }) := by
  induction qs generalizing cs with
  | nil =>
    cases h : cs[k]? with
    | none => simp [h]
    | some c => simp [h]
  | cons q rest ih =>
    rw [List.foldl_cons, ih, broadcastMsg_getIdx]
    cases h : cs[k]? with
    | none => rfl
    | some c => simp

theorem dedupFirst_cons_dup (p : Payload) (ps : List Payload)
    (seen : List (Option Ident)) (i : Option Ident)
    (hx : extractEventId p = .ok i) (hm : cacheMem seen i = true) :
    dedupFirst seen (p :: ps) = dedupFirst seen ps := by
  conv_lhs => rw [dedupFirst]
  rw [hx]
  simp [hm]

theorem dedupFirst_cons_new (p : Payload) (ps : List Payload)
    (seen : List (Option Ident)) (i : Option Ident)
    (hx : extractEventId p = .ok i) (hm : cacheMem seen i = false) :
    dedupFirst seen (p :: ps) = p :: dedupFirst (seen ++ [i]) ps := by
  conv_lhs => rw [dedupFirst]
  rw [hx]
  simp [hm]

theorem dedupFirst_cons_err (p : Payload) (ps : List Payload)
    (seen : List (Option Ident)) (m : String)
    (hx : extractEventId p = .error m) :
    dedupFirst seen (p :: ps) = dedupFirst seen ps := by
  conv_lhs => rw [dedupFirst]
  rw [hx]

theorem processAll_dedup (ps : List Payload) (s : ServerState)
    (hwf : ∀ p ∈ ps, wfPayload p = true)
    (hcap : s.recent_event_ids.length + ps.length ≤ 1000) :
    processAll ps s =
      { connected_clients :=
          (dedupFirst s.recent_event_ids ps).foldl
            (fun cs1 p => broadcastMsg cs1 (msgOf p)) s.connected_clients
        recent_event_ids :=
          s.recent_event_ids ++ (dedupFirst s.recent_event_ids ps).map pid } := by
  induction ps generalizing s with
  | nil =>
    simp [processAll, dedupFirst]
  | cons p rest ih =>
    have hwfp : wfPayload p = true := hwf p (by simp)
    have hrest : ∀ q ∈ rest, wfPayload q = true := fun q hq => hwf q (by simp [hq])
    have hex : extractEventId p = .ok (pid p) := wf_extract p hwfp
    obtain ⟨_, d, hd⟩ := wf_parts p hwfp
    have hlcons : (p :: rest).length = rest.length + 1 := by simp
    by_cases hm : cacheMem s.recent_event_ids (pid p) = true
    · rw [processAll_cons, (handle_dup p s (pid p) hex hm).2,
        dedupFirst_cons_dup p rest s.recent_event_ids (pid p) hex hm]
      exact ih s hrest (by rw [hlcons] at hcap; omega)
    · have hm2 : cacheMem s.recent_event_ids (pid p) = false := by simpa using hm
      have hlen : s.recent_event_ids.length < 1000 := by
        rw [hlcons] at hcap; omega
      rw [processAll_cons, handle_new_full p s (pid p) d hex hm2 hd hlen,
        dedupFirst_cons_new p rest s.recent_event_ids (pid p) hex hm2]
      rw [ih ⟨broadcastMsg s.connected_clients (.event (eventOfData d)),
            s.recent_event_ids ++ [pid p]⟩ hrest
          (by simp only [List.length_append, List.length_singleton]
              rw [hlcons] at hcap; omega)]
      have hmsg : msgOf p = .event (eventOfData d) := (wf_build_msg p d hd).2
      congr 1
      · rw [List.foldl_cons, hmsg]
      · rw [List.map_cons, List.append_assoc]
        rfl

theorem cacheMem_append_right (seen : List (Option Ident)) (j i : Option Ident)
    (h : cacheMem seen i = true) : cacheMem (seen ++ [j]) i = true := by
  simp only [cacheMem] at h ⊢
  simp at h ⊢
  exact Or.inl h

theorem cacheMem_append_self (seen : List (Option Ident)) (i : Option Ident) :
    cacheMem (seen ++ [i]) i = true := by
  simp [cacheMem]

theorem cacheMem_append_of_ne (seen : List (Option Ident)) (j i : Option Ident)
    (h : cacheMem seen i = false) (hne : j ≠ i) :
    cacheMem (seen ++ [j]) i = false := by
  simp only [cacheMem] at h ⊢
  simp at h ⊢
  exact ⟨h, fun he => hne he.symm⟩

theorem dedupFirst_count_zero (ps : List Payload) (seen : List (Option Ident))
    (i : Option Ident) (h : cacheMem seen i = true) :
    (dedupFirst seen ps).countP (fun p => pid p == i) = 0 := by
  induction ps generalizing seen with
  | nil => simp [dedupFirst]
  | cons p rest ih =>
    cases hx : extractEventId p with
    | error m =>
      rw [dedupFirst_cons_err p rest seen m hx]
      exact ih seen h
    | ok j =>
      have hpid : pid p = j := extract_ok_pid p j hx
      by_cases hj : cacheMem seen j = true
      · rw [dedupFirst_cons_dup p rest seen j hx hj]
        exact ih seen h
      · have hj2 : cacheMem seen j = false := by simpa using hj
        rw [dedupFirst_cons_new p rest seen j hx hj2]
        have hne : ¬ j = i := by
          intro he
          rw [he, h] at hj2
          cases hj2
        have hrec := ih (seen ++ [j]) (cacheMem_append_right seen j i h)
        simp [List.countP_cons, hpid, hne, hrec]

theorem dedupFirst_count_one (ps : List Payload) (seen : List (Option Ident))
    (i : Option Ident) (hfresh : cacheMem seen i = false)
    (hin : ∃ p ∈ ps, extractEventId p = .ok i) :
    (dedupFirst seen ps).countP (fun p => pid p == i) = 1 := by
  induction ps generalizing seen with
  | nil => obtain ⟨p, hp, _⟩ := hin; cases hp
  | cons p rest ih =>
    cases hx : extractEventId p with
    | error m =>
      rw [dedupFirst_cons_err p rest seen m hx]
      refine ih seen hfresh ?_
      obtain ⟨q, hq, hqx⟩ := hin
      rcases List.mem_cons.mp hq with h1 | h1
      · rw [h1, hx] at hqx; cases hqx
      · exact ⟨q, h1, hqx⟩
    | ok j =>
      have hpid : pid p = j := extract_ok_pid p j hx
      by_cases hj : cacheMem seen j = true
      · have hji : ¬ j = i := fun he => by rw [he, hfresh] at hj; cases hj
        rw [dedupFirst_cons_dup p rest seen j hx hj]
        refine ih seen hfresh ?_
        obtain ⟨q, hq, hqx⟩ := hin
        rcases List.mem_cons.mp hq with h1 | h1
        · rw [h1, hx] at hqx
          cases hqx
          exact absurd rfl hji
        · exact ⟨q, h1, hqx⟩
      · have hj2 : cacheMem seen j = false := by simpa using hj
        rw [dedupFirst_cons_new p rest seen j hx hj2]
        by_cases hji : j = i
        · subst hji
          have hz := dedupFirst_count_zero rest (seen ++ [j]) j
            (cacheMem_append_self seen j)
          rw [List.countP_cons, hz]
          simp [hpid]
        · have hrec : (dedupFirst (seen ++ [j]) rest).countP (fun p => pid p == i) = 1 := by
            refine ih (seen ++ [j]) (cacheMem_append_of_ne seen j i hfresh hji) ?_
            obtain ⟨q, hq, hqx⟩ := hin
            rcases List.mem_cons.mp hq with h1 | h1
            · rw [h1, hx] at hqx
              cases hqx
              exact absurd rfl hji
            · exact ⟨q, h1, hqx⟩
          simp [List.countP_cons, hpid, hji, hrec]

theorem dedupFirst_find_first (ps : List Payload) (seen : List (Option Ident))
    (i : Option Ident) (hfresh : cacheMem seen i = false)
    (hids : ∀ p ∈ ps, p.ids ≠ some []) :
    (dedupFirst seen ps).find? (fun p => pid p == i) =
      ps.find? (fun p => pid p == i) := by
  induction ps generalizing seen with
  | nil => simp [dedupFirst]
  | cons p rest ih =>
    have hx : extractEventId p = .ok (pid p) := extractEventId_pid p (hids p (by simp))
    have hrest : ∀ q ∈ rest, q.ids ≠ some [] := fun q hq => hids q (by simp [hq])
    by_cases hj : cacheMem seen (pid p) = true
    · have hne : ¬ (pid p = i) := by
        intro he
        rw [he, hfresh] at hj
        cases hj
      rw [dedupFirst_cons_dup p rest seen (pid p) hx hj,
        List.find?_cons_of_neg _ (by simp [hne]), ih seen hfresh hrest]
    · have hj2 : cacheMem seen (pid p) = false := by simpa using hj
      rw [dedupFirst_cons_new p rest seen (pid p) hx hj2]
      by_cases hpi : pid p = i
      · rw [List.find?_cons_of_pos _ (by simp [hpi]),
          List.find?_cons_of_pos _ (by simp [hpi])]
      · rw [List.find?_cons_of_neg _ (by simp [hpi]),
          List.find?_cons_of_neg _ (by simp [hpi])]
        exact ih (seen ++ [pid p]) (cacheMem_append_of_ne seen (pid p) i hfresh hpi) hrest

end SSE

namespace SSE

/-- Claim C1: over any sequence of well-formed raw notifications processed
while the dedup cache stays below capacity (initial count plus sequence
length at most 1000, so no reset occurs), each currently registered client
receives exactly the first-occurrence subsequence: its queue is extended by
one serialized ChangeEvent per distinct extracted identifier. For each
identifier occurring in the sequence and not already cached, the delivered
subsequence contains exactly one notification bearing it, namely the first
one in the sequence; and any notification whose identifier is already in
the cache is discarded silently — the handler returns the state unchanged
with no delivery and no error. -/
theorem dedup_delivery_exactly_once :
    ∀ (ps : List Payload) (s : ServerState),
      (∀ p ∈ ps, wfPayload p = true) →
      s.recent_event_ids.length + ps.length ≤ 1000 →
      (∀ k : Nat, (processAll ps s).connected_clients[k]? =
        (s.connected_clients[k]?).map
          (fun c => { c with
            queue := c.queue ++ (dedupFirst s.recent_event_ids ps).map msgOf })) ∧
      (∀ i : Option Ident,
        (∃ p ∈ ps, extractEventId p = .ok i) →
        cacheMem s.recent_event_ids i = false →
        (dedupFirst s.recent_event_ids ps).countP (fun p => pid p == i) = 1 ∧
        (dedupFirst s.recent_event_ids ps).find? (fun p => pid p == i) =
          ps.find? (fun p => pid p == i)) ∧
      (∀ (p : Payload) (s1 : ServerState) (i : Option Ident),
        extractEventId p = .ok i →
        cacheMem s1.recent_event_ids i = true →
        handleBody p s1 = .ok s1 ∧ handle_realtime_event p s1 = s1) := by
  intro ps s hwf hcap
  refine ⟨fun k => ?_, fun i hin hfresh => ?_,
    fun p s1 i hx hm => handle_dup p s1 i hx hm⟩
  · rw [processAll_dedup ps s hwf hcap]
    exact foldl_broadcast_getIdx (dedupFirst s.recent_event_ids ps) s.connected_clients k
  · refine ⟨dedupFirst_count_one ps s.recent_event_ids i hfresh hin, ?_⟩
    refine dedupFirst_find_first ps s.recent_event_ids i hfresh (fun p hp => ?_)
    obtain ⟨⟨a, t, hids⟩, _⟩ := wf_parts p (hwf p hp)
    rw [hids]
    simp

theorem dedup_delivery_exactly_once_wit :
    (processAll [pA, pA2, pB] s0).connected_clients[0]? =
      (s0.connected_clients[0]?).map
        (fun c => { c with
          queue := c.queue ++ (dedupFirst s0.recent_event_ids [pA, pA2, pB]).map msgOf }) ∧
    (dedupFirst s0.recent_event_ids [pA, pA2, pB]).countP
        (fun p => pid p == some "a") = 1 ∧
    handle_realtime_event pA2 (handle_realtime_event pA s0) =
      handle_realtime_event pA s0 := by
  have h := dedup_delivery_exactly_once [pA, pA2, pB] s0 (by decide) (by decide)
  exact ⟨h.1 0,
    (h.2.1 (some "a") ⟨pA, by simp, rfl⟩ (by decide)).1,
    (h.2.2 pA2 (handle_realtime_event pA s0) (some "a") rfl (by decide)).2⟩

end SSE
